import Mathlib

/-!
Verification of the YATE external-module client library (src/index.js).

The development shallowly embeds the library's pure kernel and its
connection-level state transitions:

* the field escape codec (`escape` / `unescape`, src lines 508-540),
* the hex codec for binary parameter values (`hexlify` / `unhexlify`,
  src lines 577-581 and 622-624),
* the structural decoration transforms (`yatefy` / `beautify`,
  src lines 550-575 and 583-620),
* the connection state machine: dispatch, queueing, reinstatement on
  connect, subscription management, answer/timeout correlation and
  acknowledgment of incoming messages (src lines 88-409).

JavaScript strings are modelled as Lean `String`s (their UTF-16 code
units correspond to `Char` code points for all inputs the library
handles); JavaScript objects are modelled as insertion-ordered
association lists, matching the enumeration order of string-keyed
properties.
-/

namespace Yate

/-- Model of JS `String.fromCharCode`: the argument is converted with
`ToUint16` (reduction modulo 2^16) and turned into one UTF-16 code unit.
(A result in the surrogate range, which Lean `Char` cannot hold, is not
reachable from any call site modelled here.) -/
def jsFromCharCode (n : Nat) : Char := Char.ofNat (n % 65536)

/-- Field escaping, src function `escape` (lines 508-526), string path:
a character with code point below 32, a colon, or the caller-specified
`extra` character is emitted as `%` followed by the character with 64
added to its code (`String.fromCharCode(chr.charCodeAt(0) + 64)`);
a literal `%` is doubled; everything else passes through. -/
def escapeChars (extra : Option Char) : List Char → List Char
  | [] => []
  | c :: rest =>
    if c.toNat < 32 ∨ c = ':' ∨ extra = some c then
      '%' :: jsFromCharCode (c.toNat + 64) :: escapeChars extra rest
    else if c = '%' then
      '%' :: '%' :: escapeChars extra rest
    else
      c :: escapeChars extra rest

/-- Field unescaping, src function `unescape` (lines 528-540): a `%`
consumes the next character; a second `%` denotes a literal percent,
any other character has 64 subtracted from its code
(`String.fromCharCode` applies the `ToUint16` wrap-around on underflow).
A trailing lone `%` reads past the end: `charAt` yields the empty
string, `charCodeAt` yields `NaN`, and `fromCharCode(NaN - 64)` is
`U+0000`. -/
def unescapeChars : List Char → List Char
  | [] => []
  | '%' :: [] => [jsFromCharCode 0]
  | '%' :: c :: rest =>
    (if c = '%' then '%' else jsFromCharCode (c.toNat + 65536 - 64)) :: unescapeChars rest
  | c :: rest => c :: unescapeChars rest

/-- Wrapper of `escapeChars` on `String` (the JS `escape` on a string
argument). -/
def escape (s : String) (extra : Option Char) : String := ⟨escapeChars extra s.data⟩

/-- Wrapper of `unescapeChars` on `String` (the JS `unescape`). -/
def unescape (s : String) : String := ⟨unescapeChars s.data⟩

/-! ### Hex codec for binary values (src lines 577-581 and 622-624) -/

/-- Hex digit test of the regular expression character class `[0-9a-f]`. -/
def isHexChar (c : Char) : Bool := ('0' ≤ c && c ≤ '9') || ('a' ≤ c && c ≤ 'f')

/-- One lowercase hex digit, as produced by JS `Number.prototype.toString(16)`. -/
def hexDigit (n : Nat) : Char := if n < 10 then Char.ofNat (48 + n) else Char.ofNat (87 + n)

/-- Two-digit rendering of one byte, src line 579:
`('0' + (byte & 0xFF).toString(16)).slice(-2)`. -/
def hexPair (b : Nat) : List Char := [hexDigit (b % 256 / 16), hexDigit (b % 256 % 16)]

/-- src function `hexlify` (lines 577-581) with the default joiner: each
byte becomes a lowercase two-digit hex pair, pairs are joined by single
spaces. -/
def hexlify : List Nat → List Char
  | [] => []
  | [b] => hexPair b
  | b :: rest => hexPair b ++ ' ' :: hexlify rest

/-- Value of one hex digit as accepted by Node's `Buffer.from(_, 'hex')`
(both cases accepted). -/
def hexVal (c : Char) : Option Nat :=
  if '0' ≤ c && c ≤ '9' then some (c.toNat - 48)
  else if 'a' ≤ c && c ≤ 'f' then some (c.toNat - 87)
  else if 'A' ≤ c && c ≤ 'F' then some (c.toNat - 55)
  else none

/-- Node's hex decoding as performed by `Buffer.from(str, 'hex')`: bytes
are read two digits at a time; decoding stops at the first invalid pair or
at a trailing lone digit. -/
def hexDecode : List Char → List Nat
  | a :: b :: rest =>
    match hexVal a, hexVal b with
    | some x, some y => (16 * x + y) :: hexDecode rest
    | _, _ => []
  | _ => []

/-- Space removal `str.replace(/ /g, '')` performed by src `unhexlify`
(line 623). -/
def despace (l : List Char) : List Char := l.filter (fun c => c != ' ')

/-! ### Decoration transforms (src lines 550-575 and 583-620) -/

/-- A JavaScript value as handled by the decoration transforms: a string, a
boolean, a binary buffer (list of bytes), or an object modelled as an
insertion-ordered association list (the enumeration order of string-keyed
JS properties). -/
inductive JVal where
  | str (s : String)
  | boolean (b : Bool)
  | bin (bytes : List Nat)
  | obj (fields : List (String × JVal))

/-- src function `unhexlify` (lines 622-624): remove all spaces and
hex-decode the rest into a buffer. -/
def unhexlify (s : String) : JVal := .bin (hexDecode (despace s.data))

/-- Window test: do the first five characters have the shape
`hex hex space hex hex`? A match of the regular expression
`[0-9a-f]{2}( [0-9a-f]{2})+` starts with exactly such a window, and every
such window is itself a match, so scanning for this window at every
position (`hasHexRun`) is equivalent to the substring search performed by
`value.match(/[0-9a-f]{2}( [0-9a-f]{2})+/g)` being non-null; the
equivalence with the declarative regular-expression language is proved in
`hasHexRun_iff_containsHexSeq`. -/
def headHexWindow : List Char → Bool
  | a :: b :: c :: d :: e :: _ =>
    isHexChar a && isHexChar b && (c == ' ') && isHexChar d && isHexChar e
  | _ => false

/-- Scan of the whole string for a regular-expression match (see
`headHexWindow`). -/
def hasHexRun : List Char → Bool
  | [] => false
  | c :: rest => headHexWindow (c :: rest) || hasHexRun rest

/-- Per-value coercion performed at the top of the src `beautify` loop
(lines 586-594): the literal strings false and true become booleans; a
string of length above 4 in which the hex regular expression finds a match
is hex-decoded to binary; everything else is left unchanged (non-string
values fail the strict string comparisons and the length test). -/
def beautifyVal : JVal → JVal
  | .str s =>
    if s = "false" then .boolean false
    else if s = "true" then .boolean true
    else if 4 < s.length ∧ hasHexRun s.data then unhexlify s
    else .str s
  | v => v

/-- JS property assignment `o[k] = v` on an association list: an existing
key is updated in place (property order is preserved), a new key is
appended. -/
def upsert (l : List (String × JVal)) (k : String) (v : JVal) : List (String × JVal) :=
  match l with
  | [] => [(k, v)]
  | (k1, v1) :: rest => if k1 = k then (k1, v) :: rest else (k1, v1) :: upsert rest k v

/-- JS property read `o[k]` (first matching key, `none` when absent). -/
def jsGet {α : Type} (l : List (String × α)) (k : String) : Option α :=
  match l with
  | [] => none
  | (k1, v1) :: rest => if k1 = k then some v1 else jsGet rest k

/-- Key prefix `rootkey ? rootkey + . : empty` of src line 552. -/
def pfxOf : Option String → String
  | some r => r ++ "."
  | none => ""

/-- JS `result[rootkey]` when `rootkey` is `undefined` stores under the
property name "undefined" (src line 568 at the top level). -/
def rootName : Option String → String
  | some r => r
  | none => "undefined"

/-- Scalar case of the src `yatefy` loop body (lines 566-572): a key named
`value` stores under the bare root key, every other key under prefix+key. -/
def yatefyScalar (rk : Option String) (key : String) (v : JVal)
    (acc : List (String × JVal)) : List (String × JVal) :=
  if key = "value" then upsert acc (rootName rk) v else upsert acc (pfxOf rk ++ key) v

/-- src function `yatefy` (lines 550-575): flatten a nested object to
dotted keys, accumulating into `acc` in property-enumeration order.
Buffers are first rendered as hex strings (line 558); object values
recurse with the current key as the new root key and their flat keys get
the current prefix (lines 561-565); scalars go through `yatefyScalar`. -/
def yatefyAux : List (String × JVal) → Option String → List (String × JVal) → List (String × JVal)
  | [], _, acc => acc
  | (key, .obj sub) :: rest, rk, acc =>
    yatefyAux rest rk ((yatefyAux sub (some key) []).foldl
      (fun a p => upsert a (pfxOf rk ++ p.1) p.2) acc)
  | (key, .bin b) :: rest, rk, acc =>
    yatefyAux rest rk (yatefyScalar rk key (.str ⟨hexlify b⟩) acc)
  | (key, v) :: rest, rk, acc =>
    yatefyAux rest rk (yatefyScalar rk key v acc)

/-- Entry point of src `yatefy`: empty accumulator. -/
def yatefy (fields : List (String × JVal)) (rk : Option String) : List (String × JVal) :=
  yatefyAux fields rk []

/-- src `beautify` key assignment (lines 596-614): the JS `reduce` walks
the dotted path, creating an empty object for a missing intermediate key,
boxing a scalar intermediate value `x` found at key `k` into the object
`\x7bk: x\x7d`, and at the last segment assigning directly unless the target is
already an object, in which case the value goes to its `value` sub-field.
Two JS artifacts are preserved: assigning to the last segment when the
target holds a primitive performs `primitive.value = v`, which sloppy mode
silently discards, and a Buffer intermediate (`typeof` object, so not
boxed) is walked into, where the writes only create expando properties
invisible to every structural read modelled here, hence a no-op. -/
def assignPath : List (String × JVal) → List String → JVal → List (String × JVal)
  | fields, [], _ => fields
  | fields, [k], v =>
    match jsGet fields k with
    | some (.obj sub) => upsert fields k (.obj (upsert sub "value" v))
    | some _ => fields
    | none => fields ++ [(k, v)]
  | fields, k :: k2 :: rest, v =>
    match jsGet fields k with
    | some (.obj sub) => upsert fields k (.obj (assignPath sub (k2 :: rest) v))
    | some (.bin _) => fields
    | some w => upsert fields k (.obj (assignPath [(k, w)] (k2 :: rest) v))
    | none => upsert fields k (.obj (assignPath [] (k2 :: rest) v))

/-- JS `key.split('.')` for the single-character separator: the key is
cut at every dot; an empty key yields one empty segment. -/
def splitOnDotAux : List Char → List Char → List String
  | [], acc => [String.mk acc]
  | '.' :: rest, acc => String.mk acc :: splitOnDotAux rest []
  | c :: rest, acc => splitOnDotAux rest (acc ++ [c])

/-- Wrapper of `splitOnDotAux` on `String`. -/
def splitOnDot (k : String) : List String := splitOnDotAux k.data []

/-- Test of JS `key.indexOf('.')` being falsy, i.e. equal to 0: the key
starts with a dot. Both a key containing no dot (indexOf gives -1, truthy)
and a key with a dot at a nonzero position take the split-and-walk path
(src line 596). -/
def startsWithDot (k : String) : Bool :=
  match k.data with
  | c :: _ => c == '.'
  | [] => false

/-- src function `beautify` (lines 583-620): coerce each flat value, then
assign it along its dotted key path; keys whose `indexOf('.')` is 0 are
assigned directly. -/
def beautify (flat : List (String × JVal)) : List (String × JVal) :=
  flat.foldl
    (fun result kv =>
      let v := beautifyVal kv.2
      if startsWithDot kv.1 then upsert result kv.1 v
      else assignPath result (splitOnDot kv.1) v)
    []

/-! ### Declarative reading of the hex-detection regular expression -/

/-- Rendering of a list of two-hex-digit groups with single spaces between
the groups; words of the regular expression `[0-9a-f]{2}( [0-9a-f]{2})+`
are exactly `hexGroups gs` for `gs` of length at least 2 with all
characters hex digits. -/
def hexGroups : List (Char × Char) → List Char
  | [] => []
  | [(a, b)] => [a, b]
  | (a, b) :: rest => a :: b :: ' ' :: hexGroups rest

/-- The list is one full word of the regular expression
`[0-9a-f]{2}( [0-9a-f]{2})+`: two or more two-hex-digit groups separated
by single spaces. -/
def IsHexSeq (l : List Char) : Prop :=
  ∃ gs : List (Char × Char), 2 ≤ gs.length ∧
    (∀ p ∈ gs, isHexChar p.1 ∧ isHexChar p.2) ∧ l = hexGroups gs

/-- Some substring is a word of the regular expression: the semantics of
JS `value.match(/[0-9a-f]{2}( [0-9a-f]{2})+/g)` being non-null (the
pattern is unanchored, so `match` searches every position). -/
def ContainsHexSeq (l : List Char) : Prop :=
  ∃ pre mid suf, l = pre ++ mid ++ suf ∧ IsHexSeq mid

/-- Nested structure of the documented decoration example
`\x7bA: \x7bgt: \x7bnature: "international", value: "2002"\x7d\x7d\x7d`. -/
def exampleNested : List (String × JVal) :=
  [("A", .obj [("gt", .obj [("nature", .str "international"), ("value", .str "2002")])])]

/-- Flat dotted-key form of the documented decoration example. -/
def exampleFlat : List (String × JVal) :=
  [("A.gt.nature", .str "international"), ("A.gt", .str "2002")]

/-! ### Connection model (src lines 16-409) -/

/-- Lifecycle tag of one protocol unit, the src Message `_type` field. -/
inductive MsgType where
  | outgoing
  | enqueued
  | incoming
  | answer
  | notification
  | install
  | uninstall
  | watch
  | setlocal
  | acknowledged
deriving DecidableEq

/-- One protocol message (src class Message, lines 412-420; fields `_id`,
`_origin`, `_name`, `_retval`, `_type`, `_processed`, `params`). `retval`
uses `none` for the JS `undefined` the constructor leaves. Parameters are
kept in the flat string form they have on the wire. -/
structure Msg where
  id : String
  origin : String
  name : String
  retval : Option String
  mtype : MsgType
  processed : Bool
  params : List (String × String)
deriving DecidableEq

/-- Constructor `new Message(name, params)` (src lines 413-420): type
outgoing, not processed, no retval; `id` and `origin` come from the wall
clock and the high-resolution counter and are passed in explicitly. -/
def newMsg (name : String) (params : List (String × String)) (id origin : String) : Msg :=
  { id := id, origin := origin, name := name, retval := none,
    mtype := .outgoing, processed := false, params := params }

/-- One subscription registration (src line 154). The handler function
itself carries no state observed by these claims and is omitted. -/
structure Sub where
  name : String
  priority : String
  filterParam : Option String
  filterVal : Option String
deriving DecidableEq

/-- One entry of the observable output trace: a line written to the
transport by `_send`, or a lifecycle event emitted to the application. -/
inductive Out where
  | line (s : String)
  | ev (s : String)
deriving DecidableEq

/-- A callback invocation observed by the application: completion of a
dispatched message (src lines 311-318) or its timeout (src lines
95-100). -/
inductive CbCall where
  | result (id : String) (err : Option String) (retval : Option String)
      (params : List (String × String))
  | timeoutErr (id : String)
deriving DecidableEq

/-- Connection state observed by the claims (src constructor lines
63-67): the connected flag, the local parameters (values already rendered
to the strings the wire concatenation produces), the subscription and
watcher registries, the outbound queue, the pending dispatch-callback
table `dispatchCallbacks` (modelled by the list of its keys), plus two
logs: the trace of lines written and events emitted, and the callback
invocations delivered to the application. -/
structure Conn where
  connected : Bool
  parameters : List (String × String)
  subscriptions : List (String × Sub)
  watchers : List String
  queue : List Msg
  pending : List String
  trace : List Out
  calls : List CbCall
deriving DecidableEq

/-- src function `Bool2str` (lines 542-544). -/
def Bool2str (b : Bool) : String := if b then "true" else "false"

/-- src function `Str2bool` (lines 546-548). -/
def Str2bool (s : String) : Bool := s == "true"

/-- Encoding of the trailing parameter fields (src Message.stringify,
lines 491-505, on already-flat parameters): a non-empty value yields
`:key=value` with both sides escaped; an empty (falsy) value yields
`:key` only when `includeEmpty` is set. -/
def stringifyParams (includeEmpty : Bool) (params : List (String × String)) : String :=
  params.foldl
    (fun r kv =>
      if kv.2 ≠ "" then r ++ ":" ++ escape kv.1 none ++ "=" ++ escape kv.2 none
      else if includeEmpty then r ++ ":" ++ escape kv.1 none
      else r)
    ""

/-- Wire line built by `_dispatch` (src lines 357-366). -/
def dispatchLine (m : Msg) : String :=
  "%%>message:" ++ escape m.id none ++ ":" ++ m.origin ++ ":" ++ escape m.name none
    ++ ":" ++ stringifyParams false m.params

/-- JS coercion of the acknowledged retval: `escape(undefined)` returns
the literal string "undefined" (src line 510). -/
def escapeJS : Option String → String
  | none => "undefined"
  | some s => escape s none

/-- Wire line built by `_acknowledge` (src lines 346-355). -/
def ackLine (m : Msg) : String :=
  "%%<message:" ++ escape m.id none ++ ":" ++ Bool2str m.processed
    ++ "::" ++ escapeJS m.retval ++ stringifyParams true m.params

/-- JS truthiness of an optional string: absent and empty are falsy. -/
def jsTruthy : Option String → Bool
  | none => false
  | some s => s != ""

/-- Wire line built by `_install` (src lines 368-375): the name is
escaped, the filter fields are not; the filtered form requires both
filter fields truthy. -/
def installLine (s : Sub) : String :=
  if jsTruthy s.filterParam && jsTruthy s.filterVal then
    "%%>install:" ++ s.priority ++ ":" ++ escape s.name none ++ ":"
      ++ s.filterParam.getD "" ++ ":" ++ s.filterVal.getD ""
  else
    "%%>install:" ++ s.priority ++ ":" ++ escape s.name none

/-- Wire line built by `_uninstall` (src lines 377-380, name unescaped). -/
def uninstallLine (name : String) : String := "%%>uninstall:" ++ name

/-- Wire line built by `_watch` (src lines 382-385, name unescaped). -/
def watchLine (name : String) : String := "%%>watch:" ++ name

/-- Wire line built by `_setlocal` (src lines 399-402, neither side
escaped; the value is the string the JS `+` coercion produces). -/
def setlocalLine (name value : String) : String := "%%>setlocal:" ++ name ++ ":" ++ value

/-- src `_send` (lines 404-409): write one line to the transport (the
`raw` diagnostic event is not tracked by this model). -/
def sendLine (c : Conn) (s : String) : Conn := { c with trace := c.trace ++ [.line s] }

/-- src `_dispatch` (lines 357-366): a no-op unless the message is still
`outgoing`; otherwise its line is written and it moves to `enqueued`.
Returns the connection and the (mutated) message. -/
def dispatchMsg (c : Conn) (m : Msg) : Conn × Msg :=
  if m.mtype = .outgoing then (sendLine c (dispatchLine m), { m with mtype := .enqueued })
  else (c, m)

/-- Public `dispatch(name, params, callback)` (src lines 88-108): an
invalid name throws before any state change; with a callback the message
id is recorded in the callback table and the 10000 ms timeout timer armed
immediately — at dispatch time, whether or not connected (its later firing
is the separate `fireTimeout` transition); if connected the message is
sent at once, otherwise it joins the outbound queue. The constructed
message is passed in (its id and origin come from the clock). -/
def dispatch (c : Conn) (m : Msg) (hasCallback : Bool) : Except String Conn :=
  if m.name = "" then .error "message name required"
  else
    let c1 := if hasCallback then { c with pending := c.pending ++ [m.id] } else c
    if c1.connected then .ok (dispatchMsg c1 m).1
    else .ok { c1 with queue := c1.queue ++ [m] }

/-- Sequential application of `dispatch` to several messages, none with a
callback. -/
def dispatchAll (c : Conn) (ms : List Msg) : Except String Conn :=
  match ms with
  | [] => .ok c
  | m :: rest =>
    match dispatch c m false with
    | .ok c1 => dispatchAll c1 rest
    | .error e => .error e

/-- Firing of the dispatch timeout timer (src lines 95-100): if the id is
still in the callback table the callback receives a timeout error and the
entry is deleted; otherwise nothing happens. -/
def fireTimeout (c : Conn) (id : String) : Conn :=
  if id ∈ c.pending then
    { c with calls := c.calls ++ [.timeoutErr id], pending := c.pending.erase id }
  else c

/-- Answer branch of `_process` (src lines 311-318), at the decoded level:
an answer whose id is in the callback table invokes the callback — with a
"not processed" error when `processed` is false, and with the trimmed
retval (an empty retval becomes null) and the answer's parameters — then
deletes the entry; an answer with an unknown id does nothing. -/
def processAnswer (c : Conn) (id : String) (processed : Bool) (retval : String)
    (params : List (String × String)) : Conn :=
  if id ∈ c.pending then
    { c with
      calls := c.calls ++ [.result id
        (if processed then none else some "not processed")
        (if retval = "" then none else some retval.trim) params],
      pending := c.pending.erase id }
  else c

/-- An external event that can resolve a pending dispatch: a decoded
answer line arriving, or a timeout timer firing. -/
inductive DEv where
  | answer (id : String) (processed : Bool) (retval : String)
      (params : List (String × String))
  | timeout (id : String)

/-- Application of one correlation event. -/
def stepEv (c : Conn) : DEv → Conn
  | .answer id p rv ps => processAnswer c id p rv ps
  | .timeout id => fireTimeout c id

/-- Application of a sequence of correlation events. -/
def runEvents (c : Conn) (evs : List DEv) : Conn := evs.foldl stepEv c

/-- The id an event targets. -/
def evTarget : DEv → String
  | .answer id _ _ _ => id
  | .timeout id => id

/-- The id a callback invocation belongs to. -/
def callId : CbCall → String
  | .result id _ _ _ => id
  | .timeoutErr id => id

/-- The callback invocations delivered for one id. -/
def callsFor (id : String) (cs : List CbCall) : List CbCall :=
  cs.filter (fun c => callId c == id)

/-- The first event of a list that targets the id. -/
def firstEvFor (id : String) (evs : List DEv) : Option DEv :=
  evs.find? (fun e => evTarget e == id)

/-- The single callback invocation predicted for the first event that
targets a pending id: an answer completes the callback with the answer's
outcome, a timeout delivers the timeout error. -/
def predictedCall (id : String) : Option DEv → List CbCall
  | none => []
  | some (.timeout _) => [.timeoutErr id]
  | some (.answer _ p rv ps) =>
    [.result id (if p then none else some "not processed")
      (if rv = "" then none else some rv.trim) ps]

/-- src `_start` (lines 250-289): a no-op when already connected;
otherwise set `connected`, resend every local parameter, reinstall every
subscription, reinstall every watcher, drain the outbound queue through
`_dispatch`, clear the queue, and finally emit the "connect" event.
Returns the connection and the drained messages (the JS forEach mutates
them in place). -/
def start (c : Conn) : Conn × List Msg :=
  if c.connected then (c, [])
  else
    let c1 := { c with connected := true }
    let c2 := c1.parameters.foldl (fun a kv => sendLine a (setlocalLine kv.1 kv.2)) c1
    let c3 := c2.subscriptions.foldl (fun a kv => sendLine a (installLine kv.2)) c2
    let c4 := c3.watchers.foldl (fun a n => sendLine a (watchLine n)) c3
    let p := c4.queue.foldl
      (fun (acc : Conn × List Msg) m =>
        let r := dispatchMsg acc.1 m
        (r.1, acc.2 ++ [r.2]))
      (c4, [])
    let c5 := { p.1 with queue := [] }
    ({ c5 with trace := c5.trace ++ [.ev "connect"] }, p.2)

/-- The reinstatement lines `_start` sends before the queue drain:
parameters, then subscriptions, then watchers, each in registry order. -/
def reinstLines (c : Conn) : List Out :=
  c.parameters.map (fun kv => .line (setlocalLine kv.1 kv.2))
    ++ c.subscriptions.map (fun kv => .line (installLine kv.2))
    ++ c.watchers.map (fun n => .line (watchLine n))

/-- Priority validation `/^\d\x7b0,5\x7d$/` of src line 148. -/
def validPriority (p : String) : Bool := p.length ≤ 5 && p.data.all Char.isDigit

/-- Public `subscribe` (src lines 127-158) after the argument juggling,
with a function listener supplied: an empty name, an invalid priority or
an existing subscription for the name throw, leaving the state untouched
(the thrown message is returned alongside the unchanged state); otherwise
the entry is registered and, when connected, the install request sent. -/
def subscribe (c : Conn) (name priority : String) (fp fv : Option String) :
    Conn × Option String :=
  if name = "" then (c, some "message name required")
  else if ¬ validPriority priority then
    (c, some ("priority " ++ priority ++ " is invalid"))
  else if (jsGet c.subscriptions name).isSome then
    (c, some ("subscription to " ++ name ++ " already exists, unsubscribe first"))
  else
    let s : Sub := { name := name, priority := priority, filterParam := fp, filterVal := fv }
    let c1 := { c with subscriptions := c.subscriptions ++ [(name, s)] }
    (if c1.connected then sendLine c1 (installLine s) else c1, none)

/-- Public `unsubscribe` (src lines 160-165): delete the registration and,
when connected, send the uninstall request. -/
def unsubscribe (c : Conn) (name : String) : Conn :=
  let c1 := { c with subscriptions := c.subscriptions.filter (fun kv => kv.1 != name) }
  if c1.connected then sendLine c1 (uninstallLine name) else c1

/-- src `_acknowledge` (lines 346-355): only `incoming` messages are
acknowledged; the acknowledgment line is sent and the message becomes
`acknowledged`. -/
def acknowledge (c : Conn) (m : Msg) : Conn × Msg :=
  if m.mtype = .incoming then (sendLine c (ackLine m), { m with mtype := .acknowledged })
  else (c, m)

/-- Outcome of one subscription-handler invocation: a normal return
carrying the JS return value (`none` for undefined), or a raised
exception. -/
inductive HandlerOutcome where
  | ret (retval : Option String)
  | thrown

/-- Incoming branch of `_process` (src lines 330-341), given the outcome
of the registered handler: a normal return stores the returned value as
the retval and marks the message processed; a raised exception is
swallowed by the empty catch, leaving retval and processed untouched; in
both cases the message is then acknowledged. -/
def processIncoming (c : Conn) (m : Msg) (outcome : HandlerOutcome) : Conn × Msg :=
  let m1 := match outcome with
    | .ret rv => { m with retval := rv, processed := true }
    | .thrown => m
  acknowledge c m1

/-! ### Theorems: escape codec (claim C2) -/

/-- Helper: a sub-surrogate code point survives `Char.ofNat`. -/
theorem toNat_ofNat_of_lt {n : Nat} (h : n < 55296) : (Char.ofNat n).toNat = n := by
  rw [Char.ofNat, dif_pos (Or.inl h)]
  rfl

theorem unescapeChars_cons_of_ne (c : Char) (hc : ¬ c = '%') (l : List Char) :
    unescapeChars (c :: l) = c :: unescapeChars l := by
  cases l with
  | nil => simp [unescapeChars, hc]
  | cons d t => simp [unescapeChars, hc]

theorem unescapeChars_escapeChars (l : List Char) :
    unescapeChars (escapeChars none l) = l := by
  induction l with
  | nil => rfl
  | cons c rest ih =>
    by_cases h1 : c.toNat < 32 ∨ c = ':' ∨ (none : Option Char) = some c
    · have hcode : c.toNat + 64 < 55296 := by
        rcases h1 with h | h | h
        · omega
        · subst h; decide
        · cases h
      have hp : (jsFromCharCode (c.toNat + 64)).toNat = c.toNat + 64 := by
        unfold jsFromCharCode
        rw [Nat.mod_eq_of_lt (by omega)]
        exact toNat_ofNat_of_lt hcode
      have hne : ¬ jsFromCharCode (c.toNat + 64) = '%' := by
        intro h
        have : (jsFromCharCode (c.toNat + 64)).toNat = 37 := by rw [h]; rfl
        omega
      have hlt : c.toNat < 65536 := by omega
      rw [escapeChars, if_pos h1, unescapeChars, if_neg hne, hp]
      have harg : c.toNat + 64 + 65536 - 64 = c.toNat + 65536 := by omega
      rw [harg]
      have : jsFromCharCode (c.toNat + 65536) = c := by
        unfold jsFromCharCode
        rw [Nat.add_mod_right, Nat.mod_eq_of_lt hlt, Char.ofNat_toNat]
      rw [this, ih]
    · by_cases h2 : c = '%'
      · subst h2
        rw [escapeChars, if_neg h1, if_pos rfl, unescapeChars, if_pos rfl, ih]
      · rw [escapeChars, if_neg h1, if_neg h2, unescapeChars_cons_of_ne c h2, ih]

/-- Claim C2: escaping then unescaping is the identity on every string:
characters below code 32 and the colon are escaped as a percent plus the
character shifted by 64, a literal percent is doubled, and `unescape`
reverses both forms. -/
theorem claim_C2_unescape_escape (s : String) : unescape (escape s none) = s := by
  cases s with
  | mk data => simp [escape, unescape, unescapeChars_escapeChars]

/-! ### Theorems: decoration round-trip (claim C5) -/

/-- Claim C5, counterexample: the round-trip is not the identity on every
collision-free nested structure. The one-field structure whose leaf is
the plain string "true" has no key collisions, yet decoding coerces the
leaf to the boolean true, so encoding then decoding does not return the
original. -/
theorem claim_C5_counterexample :
    ¬ beautify (yatefy [("a", JVal.str "true")] none) = [("a", JVal.str "true")] := by
  have hy : yatefy [("a", JVal.str "true")] none = [("a", JVal.str "true")] := by
    simp [yatefy, yatefyAux, yatefyScalar, upsert, pfxOf, rootName]
  have hcomp : beautify [("a", JVal.str "true")] = [("a", JVal.boolean true)] := by rfl
  rw [hy, hcomp]
  intro h
  simp at h

/-- Claim C5 as amended: the decoration round-trip is the identity on the
documented nested-object-with-sentinel-leaf example: the nested structure
encodes to exactly the flat form with keys `A.gt.nature` and `A.gt`, and
decoding that flat form restores the nested structure. (It is not the
identity for every collision-free structure, see the counterexample.) -/
theorem claim_C5_example_roundtrip :
    yatefy exampleNested none = exampleFlat ∧ beautify exampleFlat = exampleNested := by
  constructor
  · simp [exampleNested, exampleFlat, yatefy, yatefyAux, yatefyScalar, upsert, pfxOf,
      rootName]
  · rfl

/-! ### Theorems: hex detection (claim C8) and binary round-trip (claim C9) -/

theorem hexGroups_cons (p : Char × Char) (gs : List (Char × Char)) :
    ∃ t, hexGroups (p :: gs) = p.1 :: p.2 :: t := by
  cases p with
  | mk a b =>
    cases gs with
    | nil => exact ⟨[], rfl⟩
    | cons q t => exact ⟨' ' :: hexGroups (q :: t), rfl⟩

theorem hasHexRun_append_window (pre : List Char) (a b d e : Char) (t : List Char)
    (ha : isHexChar a) (hb : isHexChar b) (hd : isHexChar d) (he : isHexChar e) :
    hasHexRun (pre ++ a :: b :: ' ' :: d :: e :: t) = true := by
  induction pre with
  | nil => simp [hasHexRun, headHexWindow, ha, hb, hd, he]
  | cons c rest ih => simp [hasHexRun, ih]

theorem containsHexSeq_of_hasHexRun :
    ∀ l : List Char, hasHexRun l = true → ContainsHexSeq l := by
  intro l
  induction l with
  | nil => intro h; cases h
  | cons c rest ih =>
    intro h
    rw [hasHexRun, Bool.or_eq_true] at h
    rcases h with h | h
    · rcases rest with _ | ⟨b, _ | ⟨sp, _ | ⟨d, _ | ⟨e, t⟩⟩⟩⟩ <;>
        simp [headHexWindow] at h
      obtain ⟨⟨⟨⟨hc, hb⟩, hsp⟩, hd⟩, he⟩ := h
      subst hsp
      refine ⟨[], [c, b, ' ', d, e], t, by simp, [(c, b), (d, e)], by simp, ?_, rfl⟩
      intro p hp
      simp only [List.mem_cons, List.not_mem_nil, or_false] at hp
      rcases hp with rfl | rfl
      · exact ⟨hc, hb⟩
      · exact ⟨hd, he⟩
    · obtain ⟨pre, mid, suf, heq, hseq⟩ := ih h
      exact ⟨c :: pre, mid, suf, by simp [heq], hseq⟩

theorem hasHexRun_of_containsHexSeq :
    ∀ l : List Char, ContainsHexSeq l → hasHexRun l = true := by
  rintro l ⟨pre, mid, suf, heq, gs, hlen, hhex, hmid⟩
  rcases gs with _ | ⟨g1, _ | ⟨g2, gs'⟩⟩
  · simp at hlen
  · simp at hlen
  · obtain ⟨t, ht⟩ := hexGroups_cons g2 gs'
    have hmid2 : mid = g1.1 :: g1.2 :: ' ' :: g2.1 :: g2.2 :: t := by
      rw [hmid]
      cases g1 with
      | mk a b =>
        rw [show hexGroups ((a, b) :: g2 :: gs')
            = a :: b :: ' ' :: hexGroups (g2 :: gs') from rfl, ht]
    have h1 := hhex g1 (by simp)
    have h2 := hhex g2 (by simp)
    subst heq hmid2
    have : pre ++ (g1.1 :: g1.2 :: ' ' :: g2.1 :: g2.2 :: t) ++ suf
        = pre ++ g1.1 :: g1.2 :: ' ' :: g2.1 :: g2.2 :: (t ++ suf) := by simp
    rw [this]
    exact hasHexRun_append_window pre _ _ _ _ _ h1.1 h1.2 h2.1 h2.2

theorem hasHexRun_iff_containsHexSeq (l : List Char) :
    hasHexRun l = true ↔ ContainsHexSeq l :=
  ⟨containsHexSeq_of_hasHexRun l, hasHexRun_of_containsHexSeq l⟩

/-- Claim C8, counterexample: the claim's residual clause "all other
values remain strings" fails. The string "zz 0a 0b" is not a full word of
the hex pattern (its first character is not a hex digit), so under the
claim it should remain a string; but the unanchored JS `match` finds the
embedded word "0a 0b", so the code converts the value to binary (here the
empty buffer, because Node's hex decoding stops at the invalid
leading pair "zz"). -/
theorem claim_C8_counterexample :
    ¬ IsHexSeq ("zz 0a 0b".data) ∧
    ¬ beautifyVal (.str "zz 0a 0b") = .str "zz 0a 0b" := by
  constructor
  · rintro ⟨gs, hlen, hhex, heq⟩
    rcases gs with _ | ⟨p, gs'⟩
    · simp at hlen
    · obtain ⟨t, ht⟩ := hexGroups_cons p gs'
      rw [ht] at heq
      have hdata : "zz 0a 0b".data = 'z' :: 'z' :: ' ' :: '0' :: 'a' :: ' ' :: '0' :: 'b' :: [] := rfl
      rw [hdata] at heq
      have hp1 : p.1 = 'z' := by
        have := heq
        simp at this
        exact this.1.symm
      have hp := (hhex p (by simp)).1
      rw [hp1] at hp
      simp [isHexChar] at hp
  · have hcomp : beautifyVal (.str "zz 0a 0b") = .bin [] := by rfl
    rw [hcomp]
    intro h
    simp at h

/-- Claim C8 as amended: over the flat values passed through the decode
decoration, the literal string "true" becomes the boolean true and
"false" the boolean false; a string of length greater than 4 that
contains anywhere a substring consisting of two or more two-hex-digit
groups separated by single spaces is converted to binary (all spaces
removed, then hex-decoded); a value that is neither boolean literal and
has no such substring (or is too short) remains a string. (The original
claim required the whole string to match the hex pattern; the JS match is
unanchored, so containment suffices — see the counterexample.) -/
theorem claim_C8_amended (v : String) :
    (v = "true" → beautifyVal (.str v) = .boolean true) ∧
    (v = "false" → beautifyVal (.str v) = .boolean false) ∧
    (¬ v = "true" → ¬ v = "false" → 4 < v.length → ContainsHexSeq v.data →
      beautifyVal (.str v) = .bin (hexDecode (despace v.data))) ∧
    (¬ v = "true" → ¬ v = "false" → ¬ (4 < v.length ∧ ContainsHexSeq v.data) →
      beautifyVal (.str v) = .str v) := by
  refine ⟨?_, ?_, ?_, ?_⟩
  · intro h; subst h; rfl
  · intro h; subst h; rfl
  · intro h1 h2 h3 h4
    have hr : hasHexRun v.data = true := (hasHexRun_iff_containsHexSeq v.data).mpr h4
    simp [beautifyVal, h1, h2, h3, hr, unhexlify]
  · intro h1 h2 h3
    by_cases hlen : 4 < v.length
    · have hr : ¬ hasHexRun v.data = true := fun hh =>
        h3 ⟨hlen, (hasHexRun_iff_containsHexSeq v.data).mp hh⟩
      simp [beautifyVal, h1, h2, hr]
    · simp [beautifyVal, h1, h2, hlen]

/-- Witness for the amended claim C8, instantiating every clause at a
concrete input. -/
theorem claim_C8_amended_witness :
    beautifyVal (.str "true") = .boolean true ∧
    beautifyVal (.str "false") = .boolean false ∧
    beautifyVal (.str "0a 0b 0c") = .bin [10, 11, 12] ∧
    beautifyVal (.str "hello") = .str "hello" := by
  have hcontain : ContainsHexSeq ("0a 0b 0c".data) := by
    refine ⟨[], "0a 0b 0c".data, [], by simp, [('0', 'a'), ('0', 'b'), ('0', 'c')],
      by simp, ?_, rfl⟩
    intro p hp
    simp only [List.mem_cons, List.not_mem_nil, or_false] at hp
    rcases hp with rfl | rfl | rfl <;> exact ⟨rfl, rfl⟩
  have hnot : ¬ ContainsHexSeq ("hello".data) := by
    intro hc
    have := (hasHexRun_iff_containsHexSeq ("hello".data)).mpr hc
    simp [hasHexRun, headHexWindow] at this
  refine ⟨(claim_C8_amended "true").1 rfl, (claim_C8_amended "false").2.1 rfl, ?_, ?_⟩
  · have h := (claim_C8_amended "0a 0b 0c").2.2.1 (by decide) (by decide) (by decide) hcontain
    rw [h]
    rfl
  · exact (claim_C8_amended "hello").2.2.2 (by decide) (by decide)
      (fun hc => hnot hc.2)

theorem isHexChar_hexDigit {n : Nat} (h : n < 16) : isHexChar (hexDigit n) = true := by
  interval_cases n <;> decide

theorem hexDigit_ne_space {n : Nat} (h : n < 16) : ¬ hexDigit n = ' ' := by
  interval_cases n <;> decide

theorem hexVal_hexDigit {n : Nat} (h : n < 16) : hexVal (hexDigit n) = some n := by
  interval_cases n <;> decide

theorem despace_hexPair (b : Nat) : despace (hexPair b) = hexPair b := by
  have h1 : b % 256 / 16 < 16 := by omega
  have h2 : b % 256 % 16 < 16 := by omega
  simp [despace, hexPair, hexDigit_ne_space h1, hexDigit_ne_space h2]

theorem despace_hexlify : ∀ l : List Nat, despace (hexlify l) = (l.map hexPair).flatten
  | [] => by simp [hexlify, despace]
  | [b] => by simpa [hexlify] using despace_hexPair b
  | b :: b2 :: rest => by
    have ih := despace_hexlify (b2 :: rest)
    have hb := despace_hexPair b
    simp only [hexlify, despace, List.filter_append] at *
    simp [hb, ih]

theorem hexDecode_flatten (l : List Nat) (h : ∀ b ∈ l, b < 256) :
    hexDecode ((l.map hexPair).flatten) = l := by
  induction l with
  | nil => rfl
  | cons b rest ih =>
    have hb : b < 256 := h b (by simp)
    have h1 : b / 16 < 16 := by omega
    have h2 : b % 16 < 16 := by omega
    have hmod : b % 256 = b := Nat.mod_eq_of_lt hb
    have htail := ih (fun x hx => h x (by simp [hx]))
    have hb16 : 16 * (b / 16) + b % 16 = b := by omega
    simp only [List.map_cons, List.flatten_cons, hexPair, hmod, List.cons_append,
      List.nil_append, hexDecode, hexVal_hexDigit h1, hexVal_hexDigit h2, hb16]
    simpa using htail

theorem hexlify_eq_intercalate :
    ∀ l : List Nat, hexlify l = List.intercalate [' '] (l.map hexPair)
  | [] => rfl
  | [b] => by simp [hexlify, List.intercalate]
  | b :: b2 :: rest => by
    have ih := hexlify_eq_intercalate (b2 :: rest)
    simp only [hexlify, List.map_cons, List.intercalate] at *
    simp only [List.intersperse_cons₂, List.flatten_cons] at *
    simp [ih]

theorem hexlify_length_cons :
    ∀ (b : Nat) (l : List Nat), (hexlify (b :: l)).length = 3 * l.length + 2
  | _, [] => by simp [hexlify, hexPair]
  | b, b2 :: rest => by
    have ih := hexlify_length_cons b2 rest
    simp only [hexlify, List.length_append, List.length_cons] at *
    simp [hexPair] at *
    omega

/-- Claim C9: a binary value of N bytes renders as exactly its N
two-hex-digit pairs (every character a lowercase hex digit) joined by
single spaces, and whenever that rendering is longer than 4 characters,
the decode decoration recognizes it and restores exactly the original
bytes. -/
theorem claim_C9_binary_roundtrip (bytes : List Nat) (h : ∀ b ∈ bytes, b < 256) :
    hexlify bytes = List.intercalate [' '] (bytes.map hexPair) ∧
    (∀ b ∈ bytes, (hexPair b).length = 2 ∧ ∀ c ∈ hexPair b, isHexChar c) ∧
    (4 < (hexlify bytes).length →
      beautifyVal (.str ⟨hexlify bytes⟩) = .bin bytes) := by
  refine ⟨hexlify_eq_intercalate bytes, ?_, ?_⟩
  · intro b _
    refine ⟨rfl, ?_⟩
    intro c hc
    have h1 : b % 256 / 16 < 16 := by omega
    have h2 : b % 256 % 16 < 16 := by omega
    simp only [hexPair, List.mem_cons, List.not_mem_nil, or_false] at hc
    rcases hc with rfl | rfl
    · exact isHexChar_hexDigit h1
    · exact isHexChar_hexDigit h2
  · intro hlen
    rcases bytes with _ | ⟨b1, _ | ⟨b2, rest⟩⟩
    · simp [hexlify] at hlen
    · simp [hexlify, hexPair] at hlen
    · -- at least two bytes: the rendering has the window shape
      have hsh : ∃ t, hexlify (b1 :: b2 :: rest)
          = hexDigit (b1 % 256 / 16) :: hexDigit (b1 % 256 % 16) :: ' '
            :: hexDigit (b2 % 256 / 16) :: hexDigit (b2 % 256 % 16) :: t := by
        rcases rest with _ | ⟨b3, rest'⟩
        · exact ⟨[], rfl⟩
        · exact ⟨' ' :: hexlify (b3 :: rest'), rfl⟩
      obtain ⟨t, ht⟩ := hsh
      have hq1 : b1 % 256 / 16 < 16 := by omega
      have hq2 : b1 % 256 % 16 < 16 := by omega
      have hq3 : b2 % 256 / 16 < 16 := by omega
      have hq4 : b2 % 256 % 16 < 16 := by omega
      have hrun : hasHexRun (hexlify (b1 :: b2 :: rest)) = true := by
        rw [ht]
        exact hasHexRun_append_window [] _ _ _ _ t (isHexChar_hexDigit hq1)
          (isHexChar_hexDigit hq2) (isHexChar_hexDigit hq3) (isHexChar_hexDigit hq4)
      have hne_false : ¬ (String.mk (hexlify (b1 :: b2 :: rest))) = "false" := by
        intro hfe
        have hdat := congrArg String.data hfe
        rw [ht] at hdat
        simp at hdat
      have hne_true : ¬ (String.mk (hexlify (b1 :: b2 :: rest))) = "true" := by
        intro hte
        have hdat := congrArg String.data hte
        have hl := congrArg List.length hdat
        rw [hexlify_length_cons] at hl
        simp at hl
        omega
      have hslen : 4 < (String.mk (hexlify (b1 :: b2 :: rest))).length := hlen
      rw [beautifyVal, if_neg hne_false, if_neg hne_true,
        if_pos ⟨hslen, hrun⟩]
      rw [unhexlify]
      have : despace (String.mk (hexlify (b1 :: b2 :: rest))).data
          = ((b1 :: b2 :: rest).map hexPair).flatten := despace_hexlify _
      rw [this, hexDecode_flatten _ h]

/-- Witness for claim C9 at the four-byte buffer 0a 0b ff 00. -/
theorem claim_C9_witness :
    beautifyVal (.str (String.mk (hexlify [10, 11, 255, 0]))) = .bin [10, 11, 255, 0] :=
  (claim_C9_binary_roundtrip [10, 11, 255, 0] (by decide)).2.2 (by decide)

/-! ### Theorems: dispatch correlation (claim C1) -/

theorem callsFor_append (i : String) (cs ds : List CbCall) :
    callsFor i (cs ++ ds) = callsFor i cs ++ callsFor i ds := by
  simp [callsFor, List.filter_append]

theorem step_shape (c : Conn) (e : DEv) :
    stepEv c e
      = if evTarget e ∈ c.pending then
          { c with calls := c.calls ++ predictedCall (evTarget e) (some e),
                   pending := c.pending.erase (evTarget e) }
        else c := by
  cases e with
  | answer id p rv ps => simp [stepEv, processAnswer, evTarget, predictedCall]
  | timeout id => simp [stepEv, fireTimeout, evTarget, predictedCall]

theorem callsFor_predictedCall_self (i : String) (o : Option DEv) :
    callsFor i (predictedCall i o) = predictedCall i o := by
  cases o with
  | none => rfl
  | some e => cases e <;> simp [predictedCall, callsFor, callId]

theorem callsFor_predictedCall_ne (i j : String) (hij : ¬ j = i) (o : Option DEv) :
    callsFor i (predictedCall j o) = [] := by
  cases o with
  | none => rfl
  | some e => cases e <;> simp [predictedCall, callsFor, callId, hij]

/-- Claim C1: at-most-once delivery of the dispatch callback. Starting
from any connection whose callback table holds at most one entry for the
id, and for any interleaving of decoded answers and timer firings, the
callbacks delivered for that id are exactly those predicted for the first
event that targets the id while the entry exists: an answer delivers the
answer's outcome (error exactly when not processed, trimmed retval, the
answer's parameters), a timeout delivers the timeout error, every later
event targeting the id — in particular an answer arriving after the
timeout fired — delivers nothing. -/
theorem claim_C1_at_most_once (c : Conn) (i : String) (evs : List DEv)
    (hcount : c.pending.count i ≤ 1) :
    callsFor i (runEvents c evs).calls
      = callsFor i c.calls
        ++ (if i ∈ c.pending then predictedCall i (firstEvFor i evs) else []) := by
  induction evs generalizing c with
  | nil =>
    simp only [runEvents, List.foldl_nil, firstEvFor, List.find?_nil, predictedCall]
    by_cases hm : i ∈ c.pending <;> simp [hm]
  | cons e rest ih =>
    have hstep := step_shape c e
    rw [runEvents, List.foldl_cons, ← runEvents, hstep]
    by_cases hij : evTarget e = i
    · by_cases hmem : i ∈ c.pending
      · rw [hij, if_pos hmem]
        have hone : c.pending.count i = 1 := by
          have := List.count_pos_iff.mpr hmem
          omega
        have hzero : (c.pending.erase i).count i = 0 := by
          rw [List.count_erase_self, hone]
        have hni : ¬ i ∈ c.pending.erase i := by
          rw [← List.count_pos_iff]
          omega
        rw [ih _ (by simp [hzero])]
        simp only [if_neg hni, callsFor_append, List.append_nil,
          callsFor_predictedCall_self]
        have hfirst : firstEvFor i (e :: rest) = some e := by
          simp [firstEvFor, List.find?_cons_of_pos, hij]
        rw [hfirst, if_pos hmem]
      · rw [hij, if_neg hmem]
        rw [ih _ hcount]
        simp [hmem]
    · have hfirst : firstEvFor i (e :: rest) = firstEvFor i rest := by
        simp [firstEvFor, List.find?_cons_of_neg, hij]
      have hine : i ≠ evTarget e := fun h => hij h.symm
      by_cases hmem : evTarget e ∈ c.pending
      · rw [if_pos hmem]
        rw [ih _ (by simpa [List.count_erase_of_ne hine] using hcount)]
        simp only [callsFor_append, callsFor_predictedCall_ne i (evTarget e) hij,
          List.append_nil]
        have hmm : i ∈ c.pending.erase (evTarget e) ↔ i ∈ c.pending :=
          List.mem_erase_of_ne hine
        rw [hfirst]
        by_cases him : i ∈ c.pending
        · rw [if_pos (hmm.mpr him), if_pos him]
        · rw [if_neg (fun hx => him (hmm.mp hx)), if_neg him]
      · rw [if_neg hmem, ih _ hcount, hfirst]

/-- Witness for claim C1: one pending id, a timeout followed by a late
answer; the callback fires exactly once, with the timeout error. -/
theorem claim_C1_witness :
    callsFor "m1"
      (runEvents
        { connected := false, parameters := [], subscriptions := [], watchers := [],
          queue := [], pending := ["m1"], trace := [], calls := [] }
        [DEv.timeout "m1", DEv.answer "m1" true "ok" []]).calls
      = [CbCall.timeoutErr "m1"] := by
  have h := claim_C1_at_most_once
    { connected := false, parameters := [], subscriptions := [], watchers := [],
      queue := [], pending := ["m1"], trace := [], calls := [] }
    "m1" [DEv.timeout "m1", DEv.answer "m1" true "ok" []] (by decide)
  rw [h]
  decide

/-! ### Theorems: queue drain and reinstatement order (claims C3, C4) -/

theorem foldl_sendLine {α : Type} (f : α → String) (l : List α) (c : Conn) :
    l.foldl (fun a x => sendLine a (f x)) c
      = { c with trace := c.trace ++ l.map (fun x => Out.line (f x)) } := by
  induction l generalizing c with
  | nil => simp
  | cons x rest ih =>
    rw [List.foldl_cons, ih]
    simp [sendLine]

theorem foldl_drain (q : List Msg) (c : Conn) (acc : List Msg)
    (hq : ∀ m ∈ q, m.mtype = MsgType.outgoing) :
    q.foldl
      (fun (p : Conn × List Msg) m =>
        let r := dispatchMsg p.1 m
        (r.1, p.2 ++ [r.2]))
      (c, acc)
      = ({ c with trace := c.trace ++ q.map (fun m => Out.line (dispatchLine m)) },
         acc ++ q.map (fun m => { m with mtype := MsgType.enqueued })) := by
  induction q generalizing c acc with
  | nil => simp
  | cons m rest ih =>
    have hm : m.mtype = MsgType.outgoing := hq m (by simp)
    have hrest : ∀ x ∈ rest, x.mtype = MsgType.outgoing := fun x hx => hq x (by simp [hx])
    have hstep : dispatchMsg c m
        = (sendLine c (dispatchLine m), { m with mtype := MsgType.enqueued }) := by
      simp [dispatchMsg, hm]
    rw [List.foldl_cons]
    simp only [hstep]
    rw [ih _ _ hrest]
    simp [sendLine, List.append_assoc]

/-- Structural description of `_start` below a disconnected state: the
trace grows by the parameter lines, the subscription installs, the
watcher installs, the queued dispatch lines and the connect event, in
that order; the queue is cleared and the drained messages come back
enqueued. -/
theorem start_eq (c : Conn) (hc : c.connected = false)
    (hq : ∀ m ∈ c.queue, m.mtype = MsgType.outgoing) :
    start c
      = ({ c with connected := true, queue := [],
                  trace := c.trace ++ reinstLines c
                    ++ c.queue.map (fun m => Out.line (dispatchLine m))
                    ++ [Out.ev "connect"] },
         c.queue.map (fun m => { m with mtype := MsgType.enqueued })) := by
  rw [start, if_neg (by simp [hc])]
  simp only [foldl_sendLine]
  rw [foldl_drain _ _ _ (by simpa using hq)]
  simp [reinstLines, List.append_assoc]

/-- Claim C4: on every transition from disconnected to connected the
reinstatement is performed in a fixed order — every parameter is resent as
a setlocal line, then every subscription is reinstalled, then every
watcher is reinstalled, then the outbound queue is drained — and only
after all those writes is the connect event signalled. -/
theorem claim_C4_reinstatement_order (c : Conn) (hc : c.connected = false)
    (hq : ∀ m ∈ c.queue, m.mtype = MsgType.outgoing) :
    (start c).1.trace
      = c.trace
        ++ c.parameters.map (fun kv => Out.line (setlocalLine kv.1 kv.2))
        ++ c.subscriptions.map (fun kv => Out.line (installLine kv.2))
        ++ c.watchers.map (fun n => Out.line (watchLine n))
        ++ c.queue.map (fun m => Out.line (dispatchLine m))
        ++ [Out.ev "connect"] := by
  rw [start_eq c hc hq]
  simp [reinstLines, List.append_assoc]

/-- Witness for claim C4 at a concrete disconnected connection holding
one parameter, one subscription, one watcher and one queued message. -/
theorem claim_C4_witness :
    (start
      { connected := false,
        parameters := [("trackparam", "nodejs")],
        subscriptions := [("call.route",
          { name := "call.route", priority := "50", filterParam := none, filterVal := none })],
        watchers := ["engine.timer"],
        queue := [{ id := "9", origin := "7", name := "call.cdr", retval := none,
                    mtype := MsgType.outgoing, processed := false, params := [] }],
        pending := [], trace := [], calls := [] }).1.trace
      = [Out.line "%%>setlocal:trackparam:nodejs",
         Out.line "%%>install:50:call.route",
         Out.line "%%>watch:engine.timer",
         Out.line "%%>message:9:7:call.cdr:",
         Out.ev "connect"] := by
  rw [claim_C4_reinstatement_order _ rfl (by decide)]
  decide

/-- Dispatching while disconnected only queues: the trace, and everything
but the queue, stays put. -/
theorem dispatchAll_disconnected (c : Conn) (ms : List Msg)
    (hc : c.connected = false) (hn : ∀ m ∈ ms, ¬ m.name = "") :
    dispatchAll c ms = .ok { c with queue := c.queue ++ ms } := by
  induction ms generalizing c with
  | nil => simp [dispatchAll]
  | cons m rest ih =>
    have hm := hn m (by simp)
    have hstep : dispatch c m false = .ok { c with queue := c.queue ++ [m] } := by
      rw [dispatch, if_neg hm]
      simp [hc]
    have hrec := ih { c with queue := c.queue ++ [m] } (by simp [hc])
      (fun x hx => hn x (by simp [hx]))
    rw [dispatchAll, hstep]
    simpa [List.append_assoc] using hrec

/-- Dispatching while connected writes each line at once, in order, and
leaves the queue alone. -/
theorem dispatchAll_connected (c : Conn) (ms : List Msg) (hc : c.connected = true)
    (hn : ∀ m ∈ ms, ¬ m.name = "" ∧ m.mtype = MsgType.outgoing) :
    dispatchAll c ms
      = .ok { c with trace := c.trace ++ ms.map (fun m => Out.line (dispatchLine m)) } := by
  induction ms generalizing c with
  | nil => simp [dispatchAll]
  | cons m rest ih =>
    have hm := hn m (by simp)
    have hstep : dispatch c m false = .ok (sendLine c (dispatchLine m)) := by
      rw [dispatch, if_neg hm.1]
      simp [hc, dispatchMsg, hm.2]
    have hrec := ih (sendLine c (dispatchLine m)) (by simp [hc, sendLine])
      (fun x hx => hn x (by simp [hx]))
    rw [dispatchAll, hstep]
    simpa [sendLine, List.append_assoc] using hrec

/-- Claim C3: messages dispatched while disconnected are only queued (in
submission order, nothing written); on connect the queue is drained in the
same order, each message moving from outgoing to enqueued, the queue is
cleared, and every message dispatched after the connect is written after
all of them. -/
theorem claim_C3_queue_fifo (c0 : Conn) (ms ms2 : List Msg)
    (hdis : c0.connected = false) (hq0 : c0.queue = [])
    (h1 : ∀ m ∈ ms, ¬ m.name = "" ∧ m.mtype = MsgType.outgoing)
    (h2 : ∀ m ∈ ms2, ¬ m.name = "" ∧ m.mtype = MsgType.outgoing) :
    ∃ c1 c2 drained c3,
      dispatchAll c0 ms = .ok c1 ∧
      c1.trace = c0.trace ∧
      c1.queue = ms ∧
      start c1 = (c2, drained) ∧
      c2.queue = [] ∧
      drained = ms.map (fun m => { m with mtype := MsgType.enqueued }) ∧
      dispatchAll c2 ms2 = .ok c3 ∧
      c3.trace
        = c0.trace ++ reinstLines c0
          ++ ms.map (fun m => Out.line (dispatchLine m))
          ++ [Out.ev "connect"]
          ++ ms2.map (fun m => Out.line (dispatchLine m)) := by
  have hd := dispatchAll_disconnected c0 ms hdis (fun m hm => (h1 m hm).1)
  set c1 : Conn := { c0 with queue := c0.queue ++ ms } with hc1
  have hc1q : c1.queue = ms := by simp [hc1, hq0]
  have hst := start_eq c1 (by simp [hc1, hdis])
    (by rw [hc1q]; exact fun m hm => (h1 m hm).2)
  set c2 : Conn := { c1 with connected := true, queue := [],
                             trace := c1.trace ++ reinstLines c1
                               ++ c1.queue.map (fun m => Out.line (dispatchLine m))
                               ++ [Out.ev "connect"] } with hc2
  have hcon := dispatchAll_connected c2 ms2 (by simp [hc2]) h2
  refine ⟨c1, c2, c1.queue.map (fun m => { m with mtype := MsgType.enqueued }), _,
    hd, by simp [hc1], hc1q, hst, by simp [hc2], by rw [hc1q], hcon, ?_⟩
  simp [hc2, hc1, hq0, reinstLines, List.append_assoc]

/-- Witness for claim C3: two messages queued while disconnected, one
dispatched after the connect. -/
theorem claim_C3_witness :
    ∃ c1 c2 drained c3,
      dispatchAll
        { connected := false, parameters := [], subscriptions := [], watchers := [],
          queue := [], pending := [], trace := [], calls := [] }
        [{ id := "1", origin := "t", name := "a.b", retval := none,
           mtype := MsgType.outgoing, processed := false, params := [] },
         { id := "2", origin := "t", name := "c.d", retval := none,
           mtype := MsgType.outgoing, processed := false, params := [] }] = .ok c1 ∧
      c1.trace = [] ∧ start c1 = (c2, drained) ∧
      dispatchAll c2
        [{ id := "3", origin := "t", name := "e.f", retval := none,
           mtype := MsgType.outgoing, processed := false, params := [] }] = .ok c3 ∧
      c3.trace
        = [Out.line "%%>message:1:t:a.b:", Out.line "%%>message:2:t:c.d:",
           Out.ev "connect", Out.line "%%>message:3:t:e.f:"] := by
  obtain ⟨c1, c2, drained, c3, hd, htr, hq, hs, hq2, hdr, hcon, htrace⟩ :=
    claim_C3_queue_fifo
      { connected := false, parameters := [], subscriptions := [], watchers := [],
        queue := [], pending := [], trace := [], calls := [] }
      [{ id := "1", origin := "t", name := "a.b", retval := none,
         mtype := MsgType.outgoing, processed := false, params := [] },
       { id := "2", origin := "t", name := "c.d", retval := none,
         mtype := MsgType.outgoing, processed := false, params := [] }]
      [{ id := "3", origin := "t", name := "e.f", retval := none,
         mtype := MsgType.outgoing, processed := false, params := [] }]
      rfl rfl (by decide) (by decide)
  refine ⟨c1, c2, drained, c3, hd, htr, hs, hcon, ?_⟩
  rw [htrace]
  decide

/-! ### Theorems: subscription uniqueness (claim C7) -/

theorem jsGet_filter_ne {α : Type} (l : List (String × α)) (k : String) :
    jsGet (l.filter (fun kv => kv.1 != k)) k = none := by
  induction l with
  | nil => rfl
  | cons kv rest ih =>
    by_cases h : kv.1 = k
    · simp [List.filter_cons, h, ih]
    · simp [List.filter_cons, h, jsGet, ih]

theorem jsGet_append {α : Type} (l1 l2 : List (String × α)) (k : String)
    (h : jsGet l1 k = none) : jsGet (l1 ++ l2) k = jsGet l2 k := by
  induction l1 with
  | nil => rfl
  | cons kv rest ih =>
    rw [jsGet] at h
    by_cases hk : kv.1 = k
    · rw [if_pos hk] at h
      cases h
    · rw [List.cons_append, jsGet, if_neg hk]
      exact ih (by rwa [if_neg hk] at h)

theorem unsubscribe_subscriptions (c : Conn) (name : String) :
    (unsubscribe c name).subscriptions
      = c.subscriptions.filter (fun kv => kv.1 != name) := by
  by_cases hb : c.connected = true <;> simp [unsubscribe, hb, sendLine]

/-- Claim C7: a second subscribe for an already-registered name fails
synchronously — the state comes back untouched, so nothing was written to
the transport and the existing registration survives; after unsubscribing
the name, a subscribe with valid arguments succeeds (no error) and
registers the new entry. -/
theorem claim_C7_subscribe_unique (c : Conn) (name priority : String)
    (fp fv : Option String) (e : Sub)
    (he : jsGet c.subscriptions name = some e)
    (hn : ¬ name = "") (hp : validPriority priority = true) :
    (subscribe c name priority fp fv).1 = c ∧
    (subscribe c name priority fp fv).2.isSome = true ∧
    jsGet (subscribe c name priority fp fv).1.subscriptions name = some e ∧
    (subscribe (unsubscribe c name) name priority fp fv).2 = none ∧
    jsGet (subscribe (unsubscribe c name) name priority fp fv).1.subscriptions name
      = some { name := name, priority := priority, filterParam := fp, filterVal := fv } := by
  have hfail : subscribe c name priority fp fv
      = (c, some ("subscription to " ++ name ++ " already exists, unsubscribe first")) := by
    rw [subscribe, if_neg hn, if_neg (by simp [hp]), if_pos (by simp [he])]
  have hgone : jsGet (unsubscribe c name).subscriptions name = none := by
    rw [unsubscribe_subscriptions]
    exact jsGet_filter_ne c.subscriptions name
  have hok : (subscribe (unsubscribe c name) name priority fp fv).2 = none ∧
      (subscribe (unsubscribe c name) name priority fp fv).1.subscriptions
        = (unsubscribe c name).subscriptions
          ++ [(name, { name := name, priority := priority,
                       filterParam := fp, filterVal := fv })] := by
    rw [subscribe, if_neg hn, if_neg (by simp [hp]), if_neg (by simp [hgone])]
    constructor
    · by_cases hb : (unsubscribe c name).connected = true <;> simp [hb, sendLine]
    · by_cases hb : (unsubscribe c name).connected = true <;> simp [hb, sendLine]
  refine ⟨by rw [hfail], by rw [hfail]; rfl, by rw [hfail]; exact he, hok.1, ?_⟩
  rw [hok.2, jsGet_append _ _ _ hgone]
  simp [jsGet]

/-- Witness for claim C7 at a concrete connection holding one
subscription. -/
theorem claim_C7_witness :
    (subscribe
      { connected := true, parameters := [],
        subscriptions := [("call.route",
          { name := "call.route", priority := "", filterParam := none, filterVal := none })],
        watchers := [], queue := [], pending := [], trace := [], calls := [] }
      "call.route" "80" none none).1
      = { connected := true, parameters := [],
          subscriptions := [("call.route",
            { name := "call.route", priority := "", filterParam := none, filterVal := none })],
          watchers := [], queue := [], pending := [], trace := [], calls := [] } ∧
    (subscribe (unsubscribe
      { connected := true, parameters := [],
        subscriptions := [("call.route",
          { name := "call.route", priority := "", filterParam := none, filterVal := none })],
        watchers := [], queue := [], pending := [], trace := [], calls := [] }
      "call.route") "call.route" "80" none none).2 = none := by
  have h := claim_C7_subscribe_unique
    { connected := true, parameters := [],
      subscriptions := [("call.route",
        { name := "call.route", priority := "", filterParam := none, filterVal := none })],
      watchers := [], queue := [], pending := [], trace := [], calls := [] }
    "call.route" "80" none none
    { name := "call.route", priority := "", filterParam := none, filterVal := none }
    (by decide) (by decide) (by decide)
  exact ⟨h.1, h.2.2.2.1⟩

/-! ### Theorems: incoming handler and acknowledgment (claim C6) -/

/-- Claim C6, counterexample: a throwing handler does not yield a
processed acknowledgment. For a concrete parsed incoming message the
outcome `thrown` leaves `processed` equal to false and the acknowledgment
line sent back to the engine carries false — the claim says both should
show processed true. -/
theorem claim_C6_counterexample :
    (processIncoming
        { connected := true, parameters := [], subscriptions := [], watchers := [],
          queue := [], pending := [], trace := [], calls := [] }
        { id := "1634", origin := "99", name := "call.route", retval := some "",
          mtype := MsgType.incoming, processed := false, params := [] }
        HandlerOutcome.thrown).2.processed = false ∧
    (processIncoming
        { connected := true, parameters := [], subscriptions := [], watchers := [],
          queue := [], pending := [], trace := [], calls := [] }
        { id := "1634", origin := "99", name := "call.route", retval := some "",
          mtype := MsgType.incoming, processed := false, params := [] }
        HandlerOutcome.thrown).1.trace
      = [Out.line "%%<message:1634:false::"] := by
  constructor
  · rfl
  · rfl

/-- Claim C6 as amended: after a subscription handler runs on an incoming
message the acknowledgment is always sent — exactly one line, and the
message moves to acknowledged — but the message is marked processed =
true exactly when the handler returned normally: an exception is
swallowed, the acknowledgment is still sent, and it carries processed =
false. -/
theorem claim_C6_amended (c : Conn) (m : Msg) (rv : Option String)
    (hm : m.mtype = MsgType.incoming) (hp : m.processed = false) :
    (processIncoming c m (.ret rv)).2.processed = true ∧
    (processIncoming c m .thrown).2.processed = false ∧
    (processIncoming c m (.ret rv)).2.mtype = MsgType.acknowledged ∧
    (processIncoming c m .thrown).2.mtype = MsgType.acknowledged ∧
    (processIncoming c m (.ret rv)).1.trace
      = c.trace ++ [Out.line (ackLine { m with retval := rv, processed := true })] ∧
    (processIncoming c m .thrown).1.trace = c.trace ++ [Out.line (ackLine m)] := by
  refine ⟨?_, ?_, ?_, ?_, ?_, ?_⟩ <;>
    simp [processIncoming, acknowledge, hm, hp, sendLine]

/-- Witness for the amended claim C6 at a concrete incoming message, one
run returning a value and one throwing. -/
theorem claim_C6_amended_witness :
    (processIncoming
        { connected := true, parameters := [], subscriptions := [], watchers := [],
          queue := [], pending := [], trace := [], calls := [] }
        { id := "8", origin := "9", name := "call.route", retval := some "",
          mtype := MsgType.incoming, processed := false, params := [] }
        (.ret (some "sip/123"))).2.processed = true ∧
    (processIncoming
        { connected := true, parameters := [], subscriptions := [], watchers := [],
          queue := [], pending := [], trace := [], calls := [] }
        { id := "8", origin := "9", name := "call.route", retval := some "",
          mtype := MsgType.incoming, processed := false, params := [] }
        .thrown).2.processed = false := by
  have h := claim_C6_amended
    { connected := true, parameters := [], subscriptions := [], watchers := [],
      queue := [], pending := [], trace := [], calls := [] }
    { id := "8", origin := "9", name := "call.route", retval := some "",
      mtype := MsgType.incoming, processed := false, params := [] }
    (some "sip/123") rfl rfl
  exact ⟨h.1, h.2.1⟩

/-! ### Theorems: timeout armed at dispatch time (claim C10) -/

/-- Claim C10: the timeout timer is armed at dispatch time, not at
transmission time. A dispatch with a callback issued while disconnected
registers the pending entry and queues the message without writing
anything; the timeout can then fire while still disconnected, delivering
the timeout error and removing the entry while the message still sits in
the outbound queue; the next connect nevertheless transmits the message,
at that point untracked. -/
theorem claim_C10_timeout_before_connect (c0 : Conn) (m : Msg)
    (hdis : c0.connected = false) (hname : ¬ m.name = "")
    (hout : m.mtype = MsgType.outgoing) (hnp : ¬ m.id ∈ c0.pending)
    (hq : ∀ x ∈ c0.queue, x.mtype = MsgType.outgoing) :
    ∃ c1 c2 : Conn,
      dispatch c0 m true = .ok c1 ∧
      c1.pending = c0.pending ++ [m.id] ∧
      c1.queue = c0.queue ++ [m] ∧
      c1.trace = c0.trace ∧
      fireTimeout c1 m.id = c2 ∧
      c2.calls = c0.calls ++ [CbCall.timeoutErr m.id] ∧
      c2.pending = c0.pending ∧
      c2.queue = c0.queue ++ [m] ∧
      ¬ m.id ∈ c2.pending ∧
      (start c2).1.trace
        = c0.trace ++ reinstLines c0
          ++ (c0.queue ++ [m]).map (fun x => Out.line (dispatchLine x))
          ++ [Out.ev "connect"] := by
  have hd : dispatch c0 m true
      = .ok { c0 with pending := c0.pending ++ [m.id], queue := c0.queue ++ [m] } := by
    rw [dispatch, if_neg hname]
    simp [hdis]
  set c1 : Conn := { c0 with pending := c0.pending ++ [m.id], queue := c0.queue ++ [m] }
    with hc1
  have herase : (c0.pending ++ [m.id]).erase m.id = c0.pending := by
    rw [List.erase_append_right _ hnp, List.erase_cons_head, List.append_nil]
  have hft : fireTimeout c1 m.id
      = { c1 with calls := c1.calls ++ [CbCall.timeoutErr m.id],
                  pending := (c0.pending ++ [m.id]).erase m.id } := by
    rw [fireTimeout, if_pos (by simp [hc1])]
  set c2 : Conn := { c1 with calls := c1.calls ++ [CbCall.timeoutErr m.id],
                             pending := (c0.pending ++ [m.id]).erase m.id } with hc2
  have hq2 : ∀ x ∈ c2.queue, x.mtype = MsgType.outgoing := by
    intro x hx
    rw [hc2] at hx
    simp only [hc1] at hx
    simp only [List.mem_append, List.mem_singleton] at hx
    rcases hx with hx | hx
    · exact hq x hx
    · rw [hx]; exact hout
  have hst := start_eq c2 (by simp [hc2, hc1, hdis]) hq2
  refine ⟨c1, c2, hd, by simp [hc1], by simp [hc1], by simp [hc1], hft, ?_, ?_, ?_, ?_, ?_⟩
  · simp [hc2, hc1]
  · rw [hc2, herase]
  · simp [hc2, hc1]
  · rw [hc2, herase]; exact hnp
  · rw [hst]
    simp [hc2, hc1, reinstLines, List.append_assoc]

/-- Witness for claim C10: one message dispatched with a callback while
disconnected, the timeout firing, then the connect. -/
theorem claim_C10_witness :
    ∃ c1 c2 : Conn,
      dispatch
        { connected := false, parameters := [], subscriptions := [], watchers := [],
          queue := [], pending := [], trace := [], calls := [] }
        { id := "41", origin := "t", name := "x.y", retval := none,
          mtype := MsgType.outgoing, processed := false, params := [] } true = .ok c1 ∧
      fireTimeout c1 "41" = c2 ∧
      c2.calls = [CbCall.timeoutErr "41"] ∧
      (start c2).1.trace = [Out.line "%%>message:41:t:x.y:", Out.ev "connect"] := by
  obtain ⟨c1, c2, hd, hp, hque, htr, hft, hcalls, hpend, hq2, hnm, hst⟩ :=
    claim_C10_timeout_before_connect
      { connected := false, parameters := [], subscriptions := [], watchers := [],
        queue := [], pending := [], trace := [], calls := [] }
      { id := "41", origin := "t", name := "x.y", retval := none,
        mtype := MsgType.outgoing, processed := false, params := [] }
      rfl (by decide) rfl (by decide) (by decide)
  refine ⟨c1, c2, hd, by simpa using hft, by simpa using hcalls, ?_⟩
  rw [hst]
  decide

end Yate
